import Mathlib

/-!
# Verification of fflite's streaming parser and progress renderer

This file is a shallow embedding, in Lean 4, of the parts of the
`malashin/fflite` Go sources (`src/func.go`, with the `regexpMap` pattern
table from `src/fflite.go`, version v0.1.44) that the specification's
claims are about, together with theorems settling those claims.

Modelling conventions:

* Go `float64` values are modelled as exact rationals (`ℚ`).  All the
  arithmetic the claims touch (timecode sums, divisions by constants,
  floor/ceil/round, comparisons) is exact on the inputs in question, so
  the idealisation is faithful there; it is noted where it matters.
* Go byte strings are modelled as `String`/`List Char`.  All inputs the
  claims exercise are ASCII, where Go's byte indexing and Lean's
  character lists agree.
* Mutation is modelled by explicit state passing; console output by
  returned strings/flags.
* Go's regexp uses are modelled by hand-translated executable matchers
  (the patterns are concrete literals in `fflite.go`); each matcher's
  doc comment names the pattern it embeds.
* All recursions are structural, so every definition evaluates by
  kernel reduction (`decide`/`rfl`) on concrete input.
-/

namespace FFlite

/-! ## Executable floor/ceil on `ℚ`

`Rat.floor` from Batteries is computable; `⌊·⌋` on `ℚ` goes through the
`FloorRing` class and does not kernel-reduce, so definitions use
`Rat.floor` and proofs bridge with the lemmas below. -/

def qfloor (q : ℚ) : ℤ := Rat.floor q

def qceil (q : ℚ) : ℤ := -Rat.floor (-q)

/-! ## Model of `strconv.ParseFloat(s, 64)`

`func.go` always discards the error (`v, _ = strconv.ParseFloat(...)`),
in which case Go returns `0` on a syntax error.  `parseFloatQ?` parses
the plain decimal forms (optional sign, digits, optional fraction) that
actually flow through the program (timecode fields, integer ETA
strings); `goParseFloatAccepts` below additionally recognises the full
syntax `ParseFloat` accepts (exponents, inf/nan words, hex floats,
underscores), and is used only as an acceptance predicate. -/

def isDigit (c : Char) : Bool := '0' ≤ c && c ≤ '9'

def digVal (c : Char) : ℕ := c.toNat - '0'.toNat

def natOfDigits (l : List Char) : ℕ := l.foldl (fun a c => 10 * a + digVal c) 0

def fracOfDigits (l : List Char) : ℚ := (natOfDigits l : ℚ) / (10 ^ l.length : ℕ)

/-- Consume a maximal run `d(_?d)*` of decimal digits with underscores
allowed only between digits (Go literal syntax); returns the digits
consumed (underscores elided, as Go's value parsing does) and the
remainder. -/
def munchDigits : List Char → List Char × List Char
  | [] => ([], [])
  | c :: '_' :: d :: rest2 =>
    if isDigit c then
      if isDigit d then
        let (ds, r) := munchDigits (d :: rest2)
        (c :: ds, r)
      else ([c], '_' :: d :: rest2)
    else ([], c :: '_' :: d :: rest2)
  | c :: rest =>
    if isDigit c then
      let (ds, r) := munchDigits rest
      (c :: ds, r)
    else ([], c :: rest)

/-- Parse an unsigned decimal `digits[.digits]` (underscores between
digits allowed, as Go's `ParseFloat` does; at least one digit in total,
nothing left over). -/
def parseUnsignedQ? (l : List Char) : Option ℚ :=
  match munchDigits l with
  | (ds, []) => if ds.isEmpty then none else some (natOfDigits ds)
  | (ds, '.' :: t) =>
    (match munchDigits t with
     | (fs, []) =>
       if !ds.isEmpty || !fs.isEmpty then
         some ((natOfDigits ds : ℚ) + fracOfDigits fs)
       else none
     | _ => none)
  | _ => none

def parseFloatQ? (s : String) : Option ℚ :=
  match s.data with
  | '+' :: t => parseUnsignedQ? t
  | '-' :: t => (parseUnsignedQ? t).map (fun q => -q)
  | t => parseUnsignedQ? t

/-- `strconv.ParseFloat` with the error ignored: `0` on failure. -/
def parseFloatQ (s : String) : ℚ := (parseFloatQ? s).getD 0

def isHexDigit (c : Char) : Bool :=
  isDigit c || ('a' ≤ c && c ≤ 'f') || ('A' ≤ c && c ≤ 'F')

/-- Like `munchDigits` for hexadecimal digits. -/
def munchHexDigits : List Char → List Char × List Char
  | [] => ([], [])
  | c :: '_' :: d :: rest2 =>
    if isHexDigit c then
      if isHexDigit d then
        let (ds, r) := munchHexDigits (d :: rest2)
        (c :: ds, r)
      else ([c], '_' :: d :: rest2)
    else ([], c :: '_' :: d :: rest2)
  | c :: rest =>
    if isHexDigit c then
      let (ds, r) := munchHexDigits rest
      (c :: ds, r)
    else ([], c :: rest)

def stripSign : List Char → List Char
  | '+' :: t => t
  | '-' :: t => t
  | t => t

def toLowerList (l : List Char) : List Char := l.map Char.toLower

/-- `[sign] digits` (decimal exponent tail after `e`/`E`). -/
def acceptsExpTail (l : List Char) : Bool :=
  match munchDigits (stripSign l) with
  | (ds, r) => !ds.isEmpty && r.isEmpty

/-- Decimal mantissa with optional fraction and optional exponent. -/
def acceptsDecimal (l : List Char) : Bool :=
  match munchDigits l with
  | (ds, []) => !ds.isEmpty
  | (ds, '.' :: t) =>
    (match munchDigits t with
     | (fs, r2) =>
       (!ds.isEmpty || !fs.isEmpty) &&
         (match r2 with
          | [] => true
          | 'e' :: e => acceptsExpTail e
          | 'E' :: e => acceptsExpTail e
          | _ => false))
  | (ds, 'e' :: e) => !ds.isEmpty && acceptsExpTail e
  | (ds, 'E' :: e) => !ds.isEmpty && acceptsExpTail e
  | _ => false

/-- Hex mantissa after `0x`/`0X`: hex digits with optional fraction and
a mandatory `p`/`P` exponent. -/
def acceptsHexTail (l : List Char) : Bool :=
  -- Go allows one underscore right after the base prefix.
  let l := match l with
    | '_' :: d :: t => if isHexDigit d then d :: t else '_' :: d :: t
    | t => t
  match munchHexDigits l with
  | (ds, '.' :: t) =>
    (match munchHexDigits t with
     | (fs, r2) =>
       (!ds.isEmpty || !fs.isEmpty) &&
         (match r2 with
          | 'p' :: e => acceptsExpTail e
          | 'P' :: e => acceptsExpTail e
          | _ => false))
  | (ds, 'p' :: e) => !ds.isEmpty && acceptsExpTail e
  | (ds, 'P' :: e) => !ds.isEmpty && acceptsExpTail e
  | _ => false

/-- Acceptance predicate of `strconv.ParseFloat(s, 64)`: signed decimal
(with optional fraction/exponent and underscores), `inf`/`infinity`/
`nan` words (case-insensitive), or hex floats. -/
def goParseFloatAccepts (s : String) : Bool :=
  let l := stripSign s.data
  let low := toLowerList l
  (low = "inf".data) || (low = "infinity".data) || (low = "nan".data) ||
    acceptsDecimal l ||
    (match l with
     | '0' :: 'x' :: t => acceptsHexTail t
     | '0' :: 'X' :: t => acceptsHexTail t
     | _ => false)

/-! ## `round` (func.go lines 163–169)

```go
func round(input float64) int64 {
    if input < 0 {
        return int64(math.Ceil(input - 0.5))
    }
    return int64(math.Floor(input + 0.5))
}
``` -/

def round (input : ℚ) : ℤ :=
  if input < 0 then qceil (input - 1/2) else qfloor (input + 1/2)

/-! ## `math.Remainder(x, 1.0)`

IEEE-754 remainder: `x - n` where `n` is the integer nearest to `x`,
ties going to the even integer. -/

/-- Round to nearest integer, ties to even (the IEEE rounding used by
`math.Remainder`). -/
def rne (q : ℚ) : ℤ :=
  if q - qfloor q = 1/2 then
    (if qfloor q % 2 = 0 then qfloor q else qfloor q + 1)
  else qfloor (q + 1/2)

def mathRemainder1 (q : ℚ) : ℚ := q - rne q

/-! ## `hhmmssmsToSeconds` (func.go lines 121–161)

The Go loop walks the string from its last byte to its first,
collecting a buffer; on `'.'` it parses `"." + buffer` as the `ms`
part, on `':'` it appends the buffer to the `timecode` slice, and at
index 0 it appends the final field.  `hhmmssmsLoop` processes the
reversed character list (head = last byte); its second argument is the
buffer, third the current `ms`, fourth the `timecode` fields collected
so far (index 0 = seconds field, as in the Go slice). -/

def hhmmssmsLoop : List Char → List Char → ℚ → List String → ℚ × List String
  | [], _, ms, tc => (ms, tc)
  | [c], buffer, ms, tc =>
    -- i == 0: the '.'/':' branches still take precedence in Go.
    if c = '.' then (parseFloatQ (String.mk ('.' :: buffer)), tc)
    else if c = ':' then (ms, tc ++ [String.mk buffer])
    else (ms, tc ++ [String.mk (c :: buffer)])
  | c :: r₁ :: rest, buffer, ms, tc =>
    if c = '.' then hhmmssmsLoop (r₁ :: rest) [] (parseFloatQ (String.mk ('.' :: buffer))) tc
    else if c = ':' then hhmmssmsLoop (r₁ :: rest) [] ms (tc ++ [String.mk buffer])
    else hhmmssmsLoop (r₁ :: rest) (c :: buffer) ms tc

def hhmmssmsToSeconds (hhmmssms : String) : ℚ :=
  let (ms, tc) := hhmmssmsLoop hhmmssms.data.reverse [] 0 []
  match tc with
  | [t0] => parseFloatQ t0 + ms
  | [t0, t1] => parseFloatQ t0 + parseFloatQ t1 * 60 + ms
  | [t0, t1, t2] => parseFloatQ t0 + parseFloatQ t1 * 60 + parseFloatQ t2 * 3600 + ms
  | _ => ms

/-! ## `secondsToHHMMSS` (func.go lines 171–192)

```go
s, _ := strconv.ParseFloat(seconds, 64)
hh := math.Floor(s / 3600)
mm := math.Floor((s - hh*3600) / 60)
ss := int64(math.Floor(s-hh*3600-mm*60)) + round(math.Remainder(s, 1.0))
```
with each field zero-padded on the left when `< 10`. -/

def padField (z : ℤ) : String :=
  if z < 10 then "0" ++ toString z else toString z

def secondsToHHMMSSofQ (s : ℚ) : String :=
  let hh : ℤ := qfloor (s / 3600)
  let mm : ℤ := qfloor ((s - hh * 3600) / 60)
  let ss : ℤ := qfloor (s - hh * 3600 - mm * 60) + round (mathRemainder1 s)
  padField hh ++ ":" ++ padField mm ++ ":" ++ padField ss

def secondsToHHMMSS (seconds : String) : String :=
  secondsToHHMMSSofQ (parseFloatQ seconds)

/-! ## `getETA` (func.go lines 194–208)

```go
speedArray = append(speedArray, currentSpeed)
if len(speedArray) >= 30 {
    speedArray = speedArray[len(speedArray)-30 : len(speedArray)]
}
...
if sum == 0 { return "N/A", speedArray }
return strconv.FormatInt(round((duration-currentSecond)/(sum/float64(len(speedArray)))), 10), speedArray
```
(The Go loop sums `float64`s left to right; the `ℚ` sum is exact.) -/

def getETA (currentSpeed duration currentSecond : ℚ) (speedArray : List ℚ) :
    String × List ℚ :=
  let speedArray := speedArray ++ [currentSpeed]
  let speedArray :=
    if 30 ≤ speedArray.length then speedArray.drop (speedArray.length - 30) else speedArray
  let sum : ℚ := speedArray.sum
  if sum = 0 then ("N/A", speedArray)
  else (toString (round ((duration - currentSecond) / (sum / (speedArray.length : ℚ)))),
        speedArray)

/-! ## List-of-characters search primitives

These model the `bytes`/`strings` stdlib calls the Go code makes.  All
inputs the claims exercise are ASCII, where Go's byte-wise operations
and these character-wise ones agree. -/

/-- `p` is a prefix of `l` (used rather than `List.isPrefixOf` so that
everything below is one structurally recursive package). -/
def isPre : List Char → List Char → Bool
  | [], _ => true
  | _ :: _, [] => false
  | a :: as, b :: bs => a = b && isPre as bs

/-- Index of the first occurrence of `pat` as a contiguous block of `l`
(`strings.Index`, with `none` for Go's `-1`). -/
def subIdx (pat : List Char) : List Char → Option ℕ
  | [] => if pat = [] then some 0 else none
  | l@(_ :: rest) => if isPre pat l then some 0 else (subIdx pat rest).map (· + 1)

/-- `strings.Contains(s, pat)`. -/
def strContains (s pat : String) : Bool := (subIdx pat.data s.data).isSome

/-- Does `marker` occur in `l` with `check` holding of the text after
it?  (Scans occurrences left to right.) -/
def scanFor (marker : List Char) (check : List Char → Bool) : List Char → Bool
  | [] => false
  | l@(_ :: rest) =>
    (isPre marker l && check (l.drop marker.length)) || scanFor marker check rest

/-- Like `scanFor`, but extracts from the *last* occurrence of `marker`
for which `extract` succeeds.  This models a Go regexp of the shape
`.*marker⟨sub⟩`: the leading greedy `.*` commits to the last viable
occurrence. -/
def scanForLast {α : Type} (marker : List Char) (extract : List Char → Option α) :
    List Char → Option α
  | [] => none
  | l@(_ :: rest) =>
    match scanForLast marker extract rest with
    | some r => some r
    | none => if isPre marker l then extract (l.drop marker.length) else none

/-- Earliest end-position of any of the alternative literals `alts` in
`l`. -/
def firstEndIdx (alts : List (List Char)) (l : List Char) : Option ℕ :=
  (alts.filterMap (fun a => (subIdx a l).map (· + a.length))).min?

/-- The literal-alternative sequence `pats` occurs in `l` in order
(adjacent pieces separated by arbitrary text).  This decides matching
for the regexps of the shape `.*A.*(B|C).*D.*`: taking the earliest
end-position at each step is complete for existence. -/
def seqMatch : List Char → List (List (List Char)) → Bool
  | _, [] => true
  | l, alts :: rest =>
    match firstEndIdx alts l with
    | some e => seqMatch (l.drop e) rest
    | none => false

/-- The list starts with a `\d{2}:\d{2}:\d{2}\.\d{2}` timecode. -/
def isTC : List Char → Bool
  | a :: b :: ':' :: c :: d :: ':' :: e :: f :: '.' :: g :: h :: _ =>
    isDigit a && isDigit b && isDigit c && isDigit d &&
      isDigit e && isDigit f && isDigit g && isDigit h
  | _ => false

/-- The timecode at the head of the list, if any. -/
def tcAt (l : List Char) : Option (List Char) :=
  if isTC l then some (l.take 11) else none

/-- First timecode anywhere in the list, with the remainder after it
(models a lazy `.*?(\d{2}:\d{2}:\d{2}\.\d{2})`). -/
def firstTCSplit : List Char → Option (List Char × List Char)
  | [] => none
  | l@(_ :: rest) => if isTC l then some (l.take 11, l.drop 11) else firstTCSplit rest

/-- Go `strings.Split(s, " ")` on character lists. -/
def splitSpaces : List Char → List (List Char)
  | [] => [[]]
  | ' ' :: rest => [] :: splitSpaces rest
  | c :: rest =>
    match splitSpaces rest with
    | f :: fs => (c :: f) :: fs
    | [] => [[c]]

/-- `strings.Replace(s, pat, rep, -1)`: replace all non-overlapping
occurrences, left to right.  Fuelled (fuel = length of the list) so the
recursion is structural. -/
def replaceAllFuel (pat rep : List Char) : ℕ → List Char → List Char
  | _, [] => []
  | 0, l => l
  | fuel + 1, c :: rest =>
    if pat ≠ [] && isPre pat (c :: rest) then
      rep ++ replaceAllFuel pat rep fuel (rest.drop (pat.length - 1))
    else c :: replaceAllFuel pat rep fuel rest

def replaceAllStr (s pat rep : String) : String :=
  String.mk (replaceAllFuel pat.data rep.data s.data.length s.data)

/-- `strings.TrimSpace` (ASCII whitespace; all inputs here are ASCII). -/
def trimSpace (s : String) : String :=
  let ws : Char → Bool := fun c =>
    c = ' ' || c = '\t' || c = '\n' || c = '\r' ||
      c = Char.ofNat 11 || c = Char.ofNat 12
  String.mk (((s.data.dropWhile ws).reverse.dropWhile ws).reverse)

/-! ## `dropCR` and `scanLines` (func.go lines 81–119)

The custom `bufio.SplitFunc`.  The Go return convention
`(advance, token, err)` with a `nil` token meaning "request more data"
is modelled as `ℕ × Option (List Char)`. -/

def dropCR (data : List Char) : List Char :=
  if data.getLast? = some '\r' then data.dropLast else data

/-- func.go 84–111, branch for branch:
1. `atEOF && len(data) == 0` → done;
2. first `'\r'` at `i` with the first `'\n'` not at `i+1` → CR line;
3. otherwise a first `'\n'` (necessarily at `i+1` when a `'\r'` exists,
   in which case the Go `IndexByte(data,'\n')` finds it) → LF line
   (the Go bare-CR rule at lines 97–100 is unreachable: it would need a
   `'\r'` with no `'\n'`, which rule 2 already took);
4. the `"[y/N] "` marker → prompt line (marker kept, no `dropCR`);
5. `atEOF` → the final, non-terminated line;
6. otherwise request more data. -/
def scanLines (data : List Char) (atEOF : Bool) : ℕ × Option (List Char) :=
  if atEOF && data.isEmpty then (0, none)
  else
    match data.findIdx? (· == '\r'), data.findIdx? (· == '\n') with
    | some i, fn =>
      if fn ≠ some (i + 1) then (i + 1, some (dropCR (data.take i)))
      else (i + 2, some (dropCR (data.take (i + 1))))
    | none, some j => (j + 1, some (dropCR (data.take j)))
    | none, none =>
      match subIdx "[y/N] ".data data with
      | some i => (i + 6, some (data.take (i + 6)))
      | none => if atEOF then (data.length, some (dropCR data)) else (0, none)

/-! ## Warning de-duplication (func.go lines 298–316 and 351–363) -/

structure SpamCheck where
  spamming : Bool
  spamList : List String
  notice : Bool
deriving DecidableEq

/-- func.go 298–316.  The Go `map[string]bool` is modelled as the list
of keys set to `true`; `notice` records that the one-off
"Omitting further warnings" console print happened. -/
def isWarningSpamming (array : List String) (str : String) (spamList : List String) :
    SpamCheck :=
  if spamList.contains str then ⟨true, spamList, false⟩
  else if 10 ≤ array.count str then ⟨true, str :: spamList, true⟩
  else ⟨false, spamList, false⟩

/-- func.go 351–363, with `w` the already-normalised warning text (the
`strings.TrimSpace` of the warnings-regex group replacement; the claim
quantifies over the normalised text).  Returns (rendered line if any,
notice printed?, warningArray, spamList).  The console flush of a
pending in-place progress line (358–360) is display-only. -/
def parseWarnings (w : String) (warningArray : List String) (spamList : List String) :
    Option String × Bool × List String × List String :=
  let c := isWarningSpamming warningArray w spamList
  if c.spamming then (none, c.notice, warningArray, c.spamList)
  else (some ("     \x1b[33;1m" ++ w ++ "\x1b[0m\n"), c.notice,
        warningArray ++ [w], c.spamList)

structure WarnState where
  warningArray : List String
  spamList : List String
deriving DecidableEq

def warnInit : WarnState := ⟨[], []⟩

def warnStep (st : WarnState) (w : String) : (Option String × Bool) × WarnState :=
  let r := parseWarnings w st.warningArray st.spamList
  ((r.1, r.2.1), ⟨r.2.2.1, r.2.2.2⟩)

/-- What one session step emits for one warning text. -/
structure WarnOut where
  text : String
  rendered : Bool
  notice : Bool
deriving DecidableEq

/-- Process a session's warning texts in order, collecting the emitted
renders/notices. -/
def warnRun : WarnState → List String → List WarnOut × WarnState
  | st, [] => ([], st)
  | st, w :: ws =>
    let o := warnStep st w
    let rest := warnRun o.2 ws
    (⟨w, o.1.1.isSome, o.1.2⟩ :: rest.1, rest.2)

def renderedCount (w : String) (os : List WarnOut) : ℕ :=
  os.countP (fun o => o.text == w && o.rendered)

def noticeCount (w : String) (os : List WarnOut) : ℕ :=
  os.countP (fun o => o.text == w && o.notice)

/-! ## Executable matchers for `regexpMap` (fflite.go v0.1.44 lines 163–181)

Each matcher decides `MatchString` for one concrete pattern of the
table; capture extraction is modelled where the code uses
`ReplaceAllString` with a group template. -/

/-- `Stream mapping:` -/
def matchesStreamMapping (s : String) : Bool := strContains s "Stream mapping:"

/-- `.*video:.*audio:.*subtitle:.*global headers:.*` -/
def matchesEncodingFinished (s : String) : Bool :=
  seqMatch s.data [["video:".data], ["audio:".data], ["subtitle:".data],
    ["global headers:".data]]

/-- Tail check for `Input #(\d+),.*from \'(.*)\'\:` after `Input #`:
one-or-more digits, a comma, then `from '` and a later `':`. -/
def inputTail (l : List Char) : Bool :=
  let ds := l.takeWhile isDigit
  let r := l.dropWhile isDigit
  !ds.isEmpty &&
    match r with
    | ',' :: r2 =>
      (match subIdx "from '".data r2 with
       | some i => (subIdx "':".data (r2.drop (i + 6))).isSome
       | none => false)
    | _ => false

/-- `Input #(\d+),.*from \'(.*)\'\:` -/
def matchesInput (s : String) : Bool := scanFor "Input #".data inputTail s.data

/-- Tail check for `Output #(\d+),.*to \'(.*)\'\:` after `Output #`. -/
def outputTail (l : List Char) : Bool :=
  let ds := l.takeWhile isDigit
  let r := l.dropWhile isDigit
  !ds.isEmpty &&
    match r with
    | ',' :: r2 =>
      (match subIdx "to '".data r2 with
       | some i => (subIdx "':".data (r2.drop (i + 4))).isSome
       | none => false)
    | _ => false

/-- `Output #(\d+),.*to \'(.*)\'\:` -/
def matchesOutput (s : String) : Bool := scanFor "Output #".data outputTail s.data

/-- `.*(Duration.*)` -/
def matchesDurationLine (s : String) : Bool := strContains s "Duration"

/-- Tail check for `.*Stream #(\d+\:\d+)(.*?)\: (.*)` after `Stream #`:
digits, `:`, a digit, then a later `: ` (a `: ` cannot start inside the
second digit run, so searching after its first digit is exact). -/
def streamTail (l : List Char) : Bool :=
  let ds := l.takeWhile isDigit
  let r := l.dropWhile isDigit
  !ds.isEmpty &&
    match r with
    | ':' :: d :: r2 => isDigit d && (subIdx ": ".data r2).isSome
    | _ => false

/-- `.*Stream #(\d+\:\d+)(.*?)\: (.*)` -/
def matchesStream (s : String) : Bool := scanFor "Stream #".data streamTail s.data

/-- The `warnings` pattern: alternation of
`.*Warning:.*`, `.*Past duration.*too large.*`, `.*Starting second
pass.*`, `.*At least one output file must be specified.*`,
`.*fontselect:.*`, `.*Bitrate .* is extremely low, maybe you mean.*`,
`.*parameter is set too low.*`. -/
def matchesWarnings (s : String) : Bool :=
  strContains s "Warning:" ||
  seqMatch s.data [["Past duration".data], ["too large".data]] ||
  strContains s "Starting second pass" ||
  strContains s "At least one output file must be specified" ||
  strContains s "fontselect:" ||
  seqMatch s.data [["Bitrate ".data], [" is extremely low, maybe you mean".data]] ||
  strContains s "parameter is set too low"

/-- `(.*Press \[q\] to stop.*|.*Last message repeated.*)` -/
def matchesHide (s : String) : Bool :=
  strContains s "Press [q] to stop" || strContains s "Last message repeated"

/-- The plain `.*X.*` alternatives of the `errors` pattern, in source
order. -/
def errorSubstrings : List String :=
  ["No such file", "Invalid data", "Unrecognized option", "Option not found",
   "matches no streams", "not supported", "Invalid argument", "Error",
   "not exist", "-vf/-af/-filter", "No such filter", "does not contain",
   "Not overwriting - exiting", "denied", "[y/N]",
   "Trailing options were found on the commandline", "unconnected output",
   "Cannot create the link", "Media type mismatch",
   "Cannot find a matching stream", "Unknown encoder",
   "experimental codecs are not enabled",
   "Alternatively use the non experimental encoder", "Failed to configure",
   "do not match the corresponding output", "cannot be used together",
   "Invalid out channel name", "Protocol not found", "Invalid loglevel",
   "\"quiet\"", "\"panic\"", "\"fatal\"", "\"error\"", "\"warning\"",
   "\"info\"", "\"verbose\"", "\"debug\"", "\"trace\"", "Unable to parse",
   "already exists. Exiting", "unable to load", "error",
   "Too many inputs specified"]

/-- The `errors` pattern (fflite.go line 171): the substring
alternatives above, plus `.*moov atom not found.` (one further
character required) and `.*\, line \d+\).*`. -/
def matchesErrors (s : String) : Bool :=
  errorSubstrings.any (fun p => strContains s p) ||
  scanFor "moov atom not found".data (fun l => !l.isEmpty) s.data ||
  scanFor ", line ".data
    (fun l =>
      let ds := l.takeWhile isDigit
      let r := l.dropWhile isDigit
      !ds.isEmpty && match r with | ')' :: _ => true | _ => false)
    s.data

/-- `.*(time=.*) bitrate=.*(?:\/s|N\/A)(?: |.*)(dup=.*)* *(speed=.*x) *`
as an existence test: the literals `time=`, ` bitrate=`, `/s`-or-`N/A`,
`speed=`, `x` in order (the `.*`/optional pieces absorb everything in
between). -/
def matchesEncoding (s : String) : Bool :=
  seqMatch s.data [["time=".data], [" bitrate=".data], ["/s".data, "N/A".data],
    ["speed=".data], ["x".data]]

/-- `.*(time=.*) bitrate=.*(?:\/s|N\/A)(?: |.*)(dup=.*)* *` as an
existence test. -/
def matchesEncodingNoSpeed (s : String) : Bool :=
  seqMatch s.data [["time=".data], [" bitrate=".data], ["/s".data, "N/A".data]]

/-- `regexpMap["currentSecond"].ReplaceAllString(line, "$1")` for
`.*size=.* time=.*?(\d{2}\:\d{2}\:\d{2}\.\d{2}).*`: if the line
matches, the whole line is replaced by the captured timecode — the
greedy `.*`s commit to the last viable `size=` and, after it, the last
viable ` time=`, then the lazy `.*?` takes the first timecode; if not,
the line is returned unchanged. -/
def extractCurrentSecond (line : String) : String :=
  match scanForLast "size=".data
      (fun l => scanForLast " time=".data (fun l2 => (firstTCSplit l2).map (·.1)) l)
      line.data with
  | some tc => String.mk tc
  | none => line

/-- `regexpMap["durationHHMMSSMS"].ReplaceAllString(line, "${1}")` for
`.*Duration: (\d{2}\:\d{2}\:\d{2}\.\d{2}).*`: the captured timecode of
the last `Duration: ` occurrence, or the unchanged line on no match. -/
def extractDurationTC (line : String) : String :=
  match scanForLast "Duration: ".data tcAt line.data with
  | some tc => String.mk tc
  | none => line

/-- The number-before-`x` capture of `speed=.*?(\d+\.\d+|\d+)x` at the
head of `l` (`\d+\.\d+` preferred, maximal digit runs are exact here). -/
def numXAt (l : List Char) : Option (List Char) :=
  let ds := l.takeWhile isDigit
  if ds.isEmpty then none
  else
    let r := l.dropWhile isDigit
    match r with
    | '.' :: t =>
      let fs := t.takeWhile isDigit
      let r2 := t.dropWhile isDigit
      if !fs.isEmpty && (match r2 with | 'x' :: _ => true | _ => false) then
        some (ds ++ '.' :: fs)
      else none
    | 'x' :: _ => some ds
    | _ => none

/-- First position where `numXAt` succeeds (the lazy `.*?`). -/
def firstNumX : List Char → Option (List Char)
  | [] => none
  | l@(_ :: rest) =>
    match numXAt l with
    | some n => some n
    | none => firstNumX rest

/-- The two captures of `regexpMap["timeSpeed"]`
(`.* time=.*?(\d{2}\:\d{2}\:\d{2}\.\d{2}).* speed=.*?(\d+\.\d+|\d+)x`)
if the line matches. -/
def timeSpeedCapture (line : String) : Option (String × String) :=
  scanForLast " time=".data
    (fun l =>
      match firstTCSplit l with
      | some (tc, rest) =>
        (scanForLast " speed=".data firstNumX rest).map
          (fun num => (String.mk tc, String.mk num))
      | none => none)
    line.data

/-- `regexpMap["timeSpeed"].ReplaceAllString(line, "$1 $2")` followed by
`strings.Split(…, " ")`, of which parseEncoding uses fields 0 and 1:
the two captures on a match; the line's first two space-separated
fields otherwise (a non-matching line here always contains a space, so
Go's index 1 does not panic). -/
def timeSpeedFields (line : String) : String × String :=
  match timeSpeedCapture line with
  | some (tc, num) => (tc, num)
  | none =>
    let parts := splitSpaces line.data
    (String.mk (parts.getD 0 []), String.mk (parts.getD 1 []))

/-! ## Session phase machine of `encodeFile` (func.go lines 894–1019)

Only the state the claims touch is tracked: the two phase flags and the
parsed total duration. -/

structure SessState where
  encodingStarted : Bool
  streamMapping : Bool
  duration : ℚ
deriving DecidableEq

/-- The first `switch` of the line loop (func.go 957–969): phase-flag
updates.  (`parseFinish`, 440–451, flips `encodingStarted` off; the
wall-clock captures at 963–964 are modelled for claim C6 separately.) -/
def firstSwitch (st : SessState) (line : String) : SessState :=
  if !st.encodingStarted && matchesStreamMapping line then
    { st with streamMapping := true }
  else if !st.encodingStarted && st.streamMapping && !strContains line "->" then
    { st with streamMapping := false }
  else if !st.encodingStarted && (matchesEncoding line || matchesEncodingNoSpeed line)
      && extractCurrentSecond line ≠ "00:00:00.00" then
    { st with streamMapping := false, encodingStarted := true }
  else if st.encodingStarted && matchesEncodingFinished line then
    { st with encodingStarted := false }
  else st

/-- Which branch of the second `switch` (func.go 971–999) handles the
line, given the post-`firstSwitch` state. -/
inductive LineClass where
  | mapping | input | output | duration | stream | warning | hidden
  | encodingSub | errors | dropped
deriving DecidableEq

def classifyLine (st : SessState) (line : String) : LineClass :=
  if st.streamMapping then .mapping
  else if matchesInput line then .input
  else if matchesOutput line then .output
  else if matchesDurationLine line then .duration
  else if matchesStream line then .stream
  else if matchesWarnings line then .warning
  else if matchesHide line then .hidden
  else if st.encodingStarted then .encodingSub
  else if matchesErrors line then .errors
  else .dropped

/-- The captured duration value of `parseDuration` (func.go 326–330). -/
def parseDurationValue (line : String) : ℚ :=
  hhmmssmsToSeconds (extractDurationTC line)

/-- One full line step of the session state. -/
def sessStep (st : SessState) (line : String) : SessState :=
  let st1 := firstSwitch st line
  if classifyLine st1 line = .duration then
    { st1 with duration := parseDurationValue line }
  else st1

def runSess (st : SessState) (lines : List String) : SessState :=
  lines.foldl sessStep st

/-- The line reaches the duration branch from state `st`. -/
def durHit (st : SessState) (line : String) : Bool :=
  classifyLine (firstSwitch st line) line == .duration

/-- No line of the list reaches the duration branch along the run. -/
def noDurHits : SessState → List String → Bool
  | _, [] => true
  | st, l :: ls => !durHit st l && noDurHits (sessStep st l) ls

/-- The spec's session phases (§4.3) as flag states of `encodeFile`
(`finished` differs from `idle` only by the `encodingFinished` flag,
which the line dispatch never reads). -/
inductive Phase where
  | idle | mappingStreams | encoding | finished
deriving DecidableEq

def Phase.toState : Phase → ℚ → SessState
  | .idle, d => ⟨false, false, d⟩
  | .mappingStreams, d => ⟨false, true, d⟩
  | .encoding, d => ⟨true, false, d⟩
  | .finished, d => ⟨false, false, d⟩

/-! ## Progress rendering (func.go lines 210–222, 365–424) -/

/-- func.go 210–222 (`n` is in runes; `side = 'r'` pads on the left). -/
def truncPad (s : String) (n : ℕ) (side : Char) : String :=
  let len := s.data.length
  if n < len then String.mk (s.data.take (n - 3)) ++ "\x1b[30;1m...\x1b[0m"
  else if side = 'r' then String.mk (List.replicate (n - len) ' ') ++ s
  else s ++ String.mk (List.replicate (n - len) ' ')

/-- Go `int64(f)`: truncation toward zero. -/
def int64trunc (q : ℚ) : ℤ := if q < 0 then qceil q else qfloor q

/-- `strconv.FormatFloat(f, 'f', 2, 64)` on the `ℚ` model: two decimal
places, ties to even (ties are not exercised by the claims). -/
def centiString (n : ℕ) : String :=
  toString (n / 100) ++ "." ++ (if n % 100 < 10 then "0" else "") ++ toString (n % 100)

def formatF2 (q : ℚ) : String :=
  let scaled : ℤ := rne (q * 100)
  if scaled < 0 then "-" ++ centiString scaled.natAbs else centiString scaled.natAbs

/-- The in-place-overwrite padding (func.go 387–389 and 419–421). -/
def padOverwrite (line lastLineFull : String) : String :=
  if !lastLineFull.data.isEmpty && lastLineFull.data.getLast? = some '\r'
      && line.data.length < (trimSpace lastLineFull).data.length then
    line ++ String.mk (List.replicate ((trimSpace lastLineFull).data.length - line.data.length) ' ')
  else line

/-- The `dup=0 `/`drop=0 ` noise stripping (func.go 372–377, 404–409). -/
def stripDupDrop (line : String) : String :=
  let line := if strContains line "dup=0 " then replaceAllStr line "dup=0 " "" else line
  if strContains line "drop=0 " then replaceAllStr line "drop=0 " "" else line

/-- func.go 365–392.  `body` stands for
`regexpMap["encoding"].ReplaceAllString(line, "${1} ${3} \x1b[33;1m${2}\x1b[0m")`,
the one regex transformation left abstract (its groups are the `time=`,
`speed=` and optional `dup=` fields of `line`); everything else is the
Go body verbatim.  Returns (rendered line, lastLine, progress,
speedArray). -/
def parseEncoding (line body lastLineFull : String) (duration : ℚ)
    (speedArray : List ℚ) : String × String × String × List ℚ :=
  let ts := timeSpeedFields line
  let currentSecond := hhmmssmsToSeconds ts.1
  let currentSpeed := parseFloatQ ts.2
  let progress := "N\\A"
  let bodyLine := stripDupDrop (trimSpace body)
  let lastLine := bodyLine
  if 0 < duration then
    let progress := truncPad (toString (int64trunc (currentSecond / (duration / 100)))) 3 'r'
    let (eta, speedArray) := getETA currentSpeed duration currentSecond speedArray
    let eta := secondsToHHMMSS eta
    let out := padOverwrite
      ("\x1b[33;1m" ++ progress ++ "%\x1b[0m eta=" ++ eta ++ " " ++ bodyLine)
      lastLineFull ++ "\r"
    (out, lastLine, progress, speedArray)
  else
    let out := padOverwrite ("\x1b[33;1m" ++ progress ++ "\x1b[0m " ++ bodyLine)
      lastLineFull ++ "\r"
    (out, lastLine, progress, speedArray)

/-- The derived-speed computation of func.go 396–400. -/
def noSpeedDerivedSpeed (currentSecond prevSecond currentUptime prevUptime : ℚ) : ℚ :=
  if 0 < currentUptime - prevUptime then
    (currentSecond - prevSecond) / (currentUptime - prevUptime)
  else 0

/-- func.go 394–424.  `g1`, `g2` are the two capture groups of
`regexpMap["encodingNoSpeed"]` on `line` (the template splices the
computed speed between them); `currentUptime` models
`time.Since(startTime)` at this line.  Note the Go `:=` at line 412
shadows `progress`, so the returned progress is always `"N\A"`. -/
def parseEncodingNoSpeed (line g1 g2 lastLineFull : String) (duration : ℚ)
    (currentUptime prevUptime prevSecond : ℚ) (speedArray : List ℚ) :
    String × String × String × List ℚ :=
  let currentSecond := hhmmssmsToSeconds (extractCurrentSecond line)
  let currentSpeed := noSpeedDerivedSpeed currentSecond prevSecond currentUptime prevUptime
  let progress := "N\\A"
  let bodyLine := stripDupDrop (trimSpace
    (g1 ++ " speed=" ++ formatF2 currentSpeed ++ "x \x1b[33;1m" ++ g2 ++ "\x1b[0m"))
  let lastLine := bodyLine
  if 0 < duration then
    let progress2 := truncPad (toString (int64trunc (currentSecond / (duration / 100)))) 3 'r'
    let (eta, speedArray) := getETA currentSpeed duration currentSecond speedArray
    let eta := secondsToHHMMSS eta
    let out := padOverwrite
      ("\x1b[33;1m" ++ progress2 ++ "%\x1b[0m eta=" ++ eta ++ " " ++ bodyLine)
      lastLineFull ++ "\r"
    (out, lastLine, progress, speedArray)
  else
    let out := padOverwrite
      ("\x1b[33;1m" ++ progress ++ "\x1b[0m " ++ bodyLine ++ " speed=" ++
        formatF2 currentSpeed ++ "x")
      lastLineFull ++ "\r"
    (out, lastLine, progress, speedArray)

/-- encodeFile's feeding of consecutive ProgressNoSpeed lines
(func.go 894–1008): `prevSecond` is declared at 897 and never assigned;
`prevUptime` is assigned once at 964, the instant encoding starts
(immediately after `startTime = time.Now()` at 963), and never
reassigned; so every call at line 991 receives `prevSecond = 0` and
`prevUptime = 0` (its encoding-start value).  Each event is (elapsed
media seconds, wall-clock seconds since encoding start). -/
def encodeFileNoSpeedSpeeds (events : List (ℚ × ℚ)) : List ℚ :=
  events.map (fun e => noSpeedDerivedSpeed e.1 0 e.2 0)

/-- Modelled from the spec (§4.4): the speed of each ProgressNoSpeed
line is the difference quotient of *consecutive* (elapsed media
seconds, wall clock) pairs, clamped to zero on a non-positive
wall-clock delta; the pair before the first line is (0, 0). -/
def specConsecutiveSpeeds : ℚ → ℚ → List (ℚ × ℚ) → List ℚ
  | _, _, [] => []
  | ps, pu, e :: es =>
    noSpeedDerivedSpeed e.1 ps e.2 pu :: specConsecutiveSpeeds e.1 e.2 es

/-! ## Error transcript (func.go lines 340–349 and 426–438) -/

/-- `regexpMap["errors"].ReplaceAllString(line, "     \x1b[31;1m${1}\x1b[0m\n")`:
for the whole-line `.*X.*` alternatives (all those exercised here) the
match is the entire line and the replacement wraps it in the colour
markers. -/
def errorsRender (line : String) : String := "     \x1b[31;1m" ++ line ++ "\x1b[0m\n"

/-- func.go 340–349; the `lastLineFull`-triggered console newline
(341–343) is display-only.  Only in batch mode is the rendered line
appended to the transcript. -/
def parseErrors (line _lastLineFull : String) (batchMode : Bool)
    (errorsArray : List String) : String × List String :=
  let line := errorsRender line
  (line, if batchMode then errorsArray ++ [line] else errorsArray)

/-- `regexpMap["timeSpeed"].ReplaceAllString(lastLine, "time=${1}")`. -/
def timeSpeedTimeReplace (lastLine : String) : String :=
  match timeSpeedCapture lastLine with
  | some (tc, _) => "time=" ++ tc
  | none => lastLine

/-- The progress-context header recorded before an encoding error
(func.go 433). -/
def ctxHeader (progress lastLine : String) : String :=
  "\x1b[33;1m" ++ progress ++ "%\x1b[0m " ++ timeSpeedTimeReplace lastLine ++ "\n"

/-- func.go 426–438 (the console newline flush at 427–429 is
display-only).  Returns (rendered line, lastLineUsed, errorsArray);
note there is no batch-mode parameter at all. -/
def parseEncodingErrors (line _lastLineFull lastLineUsed lastLine : String)
    (errorsArray : List String) (progress : String) :
    String × String × List String :=
  let (lastLineUsed, errorsArray) :=
    if lastLineUsed ≠ lastLine then
      (lastLine, errorsArray ++ [ctxHeader progress lastLine])
    else (lastLineUsed, errorsArray)
  let line := "     \x1b[31;1m" ++ line ++ "\x1b[0m\n"
  (line, lastLineUsed, errorsArray ++ [line])

/-! ## Timecode constructors for claim C4 -/

/-- A two-digit decimal field, e.g. `07`, `34`. -/
def pad2 (n : ℕ) : String := String.mk [Nat.digitChar (n / 10), Nat.digitChar (n % 10)]

/-- `HH:MM:SS.ms` with two-digit fields (the timecode form claim C4
quantifies over). -/
def mkTimecode (h m s ms : ℕ) : String :=
  pad2 h ++ ":" ++ pad2 m ++ ":" ++ pad2 s ++ "." ++ pad2 ms

/-- The `HH:MM:SS` output shape of `secondsToHHMMSS` for given field
values. -/
def mkHMS (h m s : ℤ) : String :=
  padField h ++ ":" ++ padField m ++ ":" ++ padField s

end FFlite

/-! # Theorems -/

namespace FFlite

theorem qfloor_eq (q : ℚ) : qfloor q = ⌊q⌋ := by
  rw [qfloor, Rat.floor_def' q, Rat.floor_def]

theorem qceil_eq (q : ℚ) : qceil q = ⌈q⌉ := by
  have h : Rat.floor (-q) = ⌊-q⌋ := qfloor_eq (-q)
  rw [qceil, h, Int.floor_neg, neg_neg]

end FFlite

namespace FFlite

/-! ### Helper lemmas -/

theorem getETA_snd (s d c : ℚ) (arr : List ℚ) :
    (getETA s d c arr).2 =
      if 30 ≤ arr.length + 1 then (arr ++ [s]).drop (arr.length + 1 - 30)
      else arr ++ [s] := by
  unfold getETA
  simp only [List.length_append, List.length_singleton]
  split <;> split <;> rfl

/-- C10: a line matching the error patterns outside the Encoding phase is
appended to the transcript only in batch mode (`parseErrors` guards on
`batchMode`), whereas `parseEncodingErrors` — which has no batch-mode
parameter at all — always appends the rendered error line, preceded by
its progress-context header exactly when that context is new. -/
theorem error_transcript_batch_guard
    (line lastLineFull lastLineUsed lastLine progress : String)
    (arr : List String) :
    (parseErrors line lastLineFull false arr).2 = arr ∧
    (parseErrors line lastLineFull true arr).2 = arr ++ [errorsRender line] ∧
    (parseEncodingErrors line lastLineFull lastLineUsed lastLine arr progress).2.2 =
      arr ++ (if lastLineUsed ≠ lastLine then [ctxHeader progress lastLine] else [])
          ++ ["     \x1b[31;1m" ++ line ++ "\x1b[0m\n"] := by
  refine ⟨rfl, rfl, ?_⟩
  by_cases h : lastLineUsed = lastLine <;> simp [parseEncodingErrors, h]

/-- C2: the rolling speed window returned by `getETA` never exceeds 30
samples; pushing onto a 30-sample window drops the oldest sample (FIFO),
and the reported ETA is then computed from the mean of the remaining,
most recent 30 samples. -/
theorem getETA_window_bound_and_fifo (s d c : ℚ) (arr : List ℚ) :
    (getETA s d c arr).2.length ≤ 30 ∧
    (arr.length = 30 →
      (getETA s d c arr).2 = arr.drop 1 ++ [s] ∧
      ((arr.drop 1 ++ [s]).sum ≠ 0 →
        (getETA s d c arr).1 =
          toString (round ((d - c) / ((arr.drop 1 ++ [s]).sum / (30 : ℚ)))))) := by
  have hsnd := getETA_snd s d c arr
  constructor
  · rw [hsnd]
    split
    · simp only [List.length_drop, List.length_append, List.length_singleton]
      omega
    · simp only [List.length_append, List.length_singleton]
      omega
  · intro h30
    have hwin : (getETA s d c arr).2 = arr.drop 1 ++ [s] := by
      rw [hsnd, if_pos (by omega)]
      have h1 : arr.length + 1 - 30 = 1 := by omega
      rw [h1, List.drop_append_of_le_length (by omega)]
    refine ⟨hwin, ?_⟩
    intro hsum
    unfold getETA
    have h1 : arr.length + 1 - 30 = 1 := by omega
    have hdrop : (arr ++ [s]).drop 1 = arr.drop 1 ++ [s] :=
      List.drop_append_of_le_length (by omega)
    have hlen : (arr.drop 1 ++ [s]).length = 30 := by
      simp only [List.length_append, List.length_drop, List.length_singleton]
      omega
    simp only [List.length_append, List.length_singleton, h1,
      if_pos (show 30 ≤ arr.length + 1 by omega), hdrop, hlen, if_neg hsum,
      Nat.cast_ofNat]

end FFlite

namespace FFlite

set_option maxRecDepth 100000 in
unseal Rat.add Rat.mul Rat.sub Rat.inv in
/-- Witness for C2 at a concrete 30-sample window. -/
theorem getETA_window_bound_and_fifo_witness :
    (getETA 2 100 40 (List.replicate 30 1)).2 = (List.replicate 30 1).drop 1 ++ [2] ∧
    (getETA 2 100 40 (List.replicate 30 1)).1 =
      toString (round ((100 - 40) /
        (((List.replicate 30 1).drop 1 ++ [2]).sum / (30 : ℚ)))) :=
  ⟨((getETA_window_bound_and_fifo 2 100 40 (List.replicate 30 1)).2 (by decide)).1,
   ((getETA_window_bound_and_fifo 2 100 40 (List.replicate 30 1)).2 (by decide)).2
     (by decide)⟩

set_option maxRecDepth 100000 in
unseal Rat.add Rat.mul Rat.sub Rat.inv in
/-- C6: because `encodeFile` never updates `prevSecond`/`prevUptime`, the
derived speed of a later ProgressNoSpeed line is total-media-seconds over
total-wall-seconds (here 30/10 = 3), not the consecutive difference
quotient the spec states ((30−10)/(10−5) = 4). -/
theorem noSpeed_speed_measured_from_session_start :
    encodeFileNoSpeedSpeeds [(10, 5), (30, 10)] = [2, 3] ∧
    specConsecutiveSpeeds 0 0 [(10, 5), (30, 10)] = [2, 4] ∧
    encodeFileNoSpeedSpeeds [(10, 5), (30, 10)] ≠
      specConsecutiveSpeeds 0 0 [(10, 5), (30, 10)] :=
  ⟨by decide, by decide, by decide⟩

set_option maxRecDepth 1000000 in
unseal Rat.add Rat.mul Rat.sub Rat.inv in
/-- C8: the line `Duration: 00:12:34.50` is classified as a duration
header in every session phase, capturing 754.5 seconds. -/
theorem duration_header_classified_in_any_phase (p : Phase) (d0 : ℚ) :
    classifyLine (firstSwitch (p.toState d0) "Duration: 00:12:34.50")
        "Duration: 00:12:34.50" = .duration ∧
    (sessStep (p.toState d0) "Duration: 00:12:34.50").duration = 1509 / 2 := by
  cases p <;> exact ⟨rfl, rfl⟩

set_option maxRecDepth 1000000 in
unseal Rat.add Rat.mul Rat.sub Rat.inv in
/-- Counterexample to C3: a second Duration header line re-parses and
overwrites the session's total duration (10 s becomes 20 s). -/
theorem duration_reparsed_on_later_line :
    (runSess ⟨false, false, 0⟩
        ["  Duration: 00:00:10.00, start: 0.000000, bitrate: 1411 kb/s"]).duration = 10 ∧
    (runSess ⟨false, false, 0⟩
        ["  Duration: 00:00:10.00, start: 0.000000, bitrate: 1411 kb/s",
         "  Duration: 00:00:20.00, start: 0.000000, bitrate: 1411 kb/s"]).duration = 20 ∧
    (10 : ℚ) ≠ 20 :=
  ⟨by decide, by decide, by decide⟩

theorem firstSwitch_duration (st : SessState) (l : String) :
    (firstSwitch st l).duration = st.duration := by
  unfold firstSwitch
  split <;> first | rfl | (split <;> first | rfl | (split <;> first | rfl | (split <;> rfl)))

/-- C3 (amended): the session's total duration is re-parsed by every line
that reaches the duration branch — it equals the value of the most recent
such line — and is preserved exactly while no line reaches that branch. -/
theorem duration_follows_latest_duration_line (st : SessState) (l : String)
    (ls : List String) :
    (durHit st l = true → (sessStep st l).duration = parseDurationValue l) ∧
    (noDurHits st ls = true → (runSess st ls).duration = st.duration) := by
  constructor
  · intro h
    unfold durHit at h
    unfold sessStep
    rw [if_pos (by exact_mod_cast beq_iff_eq.mp h)]
  · induction ls generalizing st with
    | nil => intro _; rfl
    | cons a as ih =>
      intro h
      unfold noDurHits at h
      rw [Bool.and_eq_true, Bool.not_eq_true'] at h
      have hstep : (sessStep st a).duration = st.duration := by
        unfold sessStep
        rw [if_neg (by simp [durHit] at h; exact h.1), firstSwitch_duration]
      show (runSess (sessStep st a) as).duration = st.duration
      rw [ih (sessStep st a) h.2, hstep]

end FFlite

namespace FFlite

set_option maxRecDepth 1000000 in
unseal Rat.add Rat.mul Rat.sub Rat.inv in
/-- Counterexample to C5: with total duration 0, the rendered progress
line contains neither the text `N/A` nor any `eta=` field; the sentinel
actually rendered is `N\A`. -/
theorem duration_zero_sentinel_counterexample :
    strContains (parseEncoding
      "frame= 10 fps= 25 q=28.0 size= 256kB time=00:00:10.00 bitrate=1400.0kbits/s speed=2.5x"
      "time=00:00:10.00 speed=2.5x \x1b[33;1m\x1b[0m" "" 0 []).1 "N/A" = false ∧
    strContains (parseEncoding
      "frame= 10 fps= 25 q=28.0 size= 256kB time=00:00:10.00 bitrate=1400.0kbits/s speed=2.5x"
      "time=00:00:10.00 speed=2.5x \x1b[33;1m\x1b[0m" "" 0 []).1 "eta=" = false ∧
    strContains (parseEncoding
      "frame= 10 fps= 25 q=28.0 size= 256kB time=00:00:10.00 bitrate=1400.0kbits/s speed=2.5x"
      "time=00:00:10.00 speed=2.5x \x1b[33;1m\x1b[0m" "" 0 []).1 "N\\A" = true ∧
    strContains (parseEncodingNoSpeed
      "frame= 10 fps= 25 q=28.0 size= 256kB time=00:00:10.00 bitrate=1400.0kbits/s"
      "time=00:00:10.00" "" "" 0 5 0 0 []).1 "N/A" = false ∧
    strContains (parseEncodingNoSpeed
      "frame= 10 fps= 25 q=28.0 size= 256kB time=00:00:10.00 bitrate=1400.0kbits/s"
      "time=00:00:10.00" "" "" 0 5 0 0 []).1 "eta=" = false :=
  ⟨by decide, by decide, by decide, by decide, by decide⟩

/-- C5 (amended): when the total duration is 0, the renderer emits the
percent position as the sentinel text `N\A` (with a backslash, as in the
source), omits the `eta=` field entirely, and returns the speed window
untouched, for any progress line and any number of accumulated samples;
`parseEncodingNoSpeed` does the same, appending its computed `speed=`
field. -/
theorem duration_zero_renders_sentinel_and_no_eta
    (line body g1 g2 lastLineFull : String) (cu pu ps : ℚ) (arr : List ℚ) :
    parseEncoding line body lastLineFull 0 arr =
      (padOverwrite ("\x1b[33;1m" ++ "N\\A" ++ "\x1b[0m " ++ stripDupDrop (trimSpace body))
         lastLineFull ++ "\r",
       stripDupDrop (trimSpace body), "N\\A", arr) ∧
    parseEncodingNoSpeed line g1 g2 lastLineFull 0 cu pu ps arr =
      ((fun sp =>
        (padOverwrite ("\x1b[33;1m" ++ "N\\A" ++ "\x1b[0m " ++
            stripDupDrop (trimSpace
              (g1 ++ " speed=" ++ formatF2 sp ++ "x \x1b[33;1m" ++ g2 ++ "\x1b[0m")) ++
            " speed=" ++ formatF2 sp ++ "x") lastLineFull ++ "\r",
         stripDupDrop (trimSpace
           (g1 ++ " speed=" ++ formatF2 sp ++ "x \x1b[33;1m" ++ g2 ++ "\x1b[0m")),
         "N\\A", arr))
       (noSpeedDerivedSpeed (hhmmssmsToSeconds (extractCurrentSecond line)) ps cu pu)) := by
  constructor
  · unfold parseEncoding
    rw [if_neg (lt_irrefl 0)]
  · unfold parseEncodingNoSpeed
    rw [if_neg (lt_irrefl 0)]

/-- C7: on the buffer `a\nb\r\nc` the splitter emits the token `a\nb`
(advance 4): the carriage return at index 3 is treated as an (a)-type
boundary even though it is immediately followed by a newline — the code
compares the index of the buffer's *first* newline with `i+1` — so the
newline at index 1 is swallowed into the token instead of ending the
line `a` as the spec's boundary rules require. -/
theorem scanLines_cr_lf_adjacency_bug :
    scanLines "a\nb\r\nc".data false = (4, some ['a', '\n', 'b']) ∧
    "a\nb\r\nc".data[3]? = some '\r' ∧
    "a\nb\r\nc".data[4]? = some '\n' ∧
    '\n' ∈ ['a', '\n', 'b'] :=
  ⟨by decide, by decide, by decide, by decide⟩

end FFlite

namespace FFlite

theorem parseUnsignedQ?_isSome_acceptsDecimal (l : List Char)
    (h : (parseUnsignedQ? l).isSome = true) : acceptsDecimal l = true := by
  unfold parseUnsignedQ? at h
  unfold acceptsDecimal
  split at h
  · next ds heq =>
    rw [heq]
    by_cases hd : ds.isEmpty
    · rw [if_pos hd] at h
      exact absurd h (by simp)
    · simp [hd]
  · next ds t heq =>
    simp only [heq]
    split at h
    · next fs heq2 =>
      simp only [heq2]
      by_cases hne : (!ds.isEmpty || !fs.isEmpty) = true
      · simp [hne]
      · rw [if_neg (by simpa using hne)] at h
        exact absurd h (by simp)
    · next => exact absurd h (by simp)
  · next => exact absurd h (by simp)

end FFlite

namespace FFlite

theorem parseFloatQ?_none_of_not_accepts (s : String)
    (h : goParseFloatAccepts s = false) : parseFloatQ? s = none := by
  cases hp : parseFloatQ? s with
  | none => rfl
  | some q =>
    exfalso
    have hsome : (parseUnsignedQ? (stripSign s.data)).isSome = true := by
      unfold parseFloatQ? at hp
      unfold stripSign
      split at hp
      · next => simp [hp]
      · next =>
        rcases Option.map_eq_some'.mp hp with ⟨q', hq', _⟩
        simp [hq']
      · next => simp [hp]
    have hacc := parseUnsignedQ?_isSome_acceptsDecimal _ hsome
    simp only [goParseFloatAccepts, Bool.or_eq_false_iff] at h
    exact absurd hacc (by simp [h.1.2])

set_option maxRecDepth 100000 in
unseal Rat.add Rat.mul Rat.sub Rat.inv in
/-- C9: any input string that `strconv.ParseFloat` rejects — including
the `N/A` sentinel `getETA` returns when the window's mean speed is
zero — makes `secondsToHHMMSS` silently fall back to 0 and render
`00:00:00`, so a zero-mean ETA is displayed as `00:00:00` rather than
as the `N/A` sentinel. -/
theorem unparsable_eta_renders_zero_timecode :
    (∀ s : String, goParseFloatAccepts s = false → secondsToHHMMSS s = "00:00:00") ∧
    (∀ (sp d c : ℚ) (arr : List ℚ), (getETA sp d c arr).2.sum = 0 →
      (getETA sp d c arr).1 = "N/A" ∧
      secondsToHHMMSS (getETA sp d c arr).1 = "00:00:00") := by
  have hzero : secondsToHHMMSSofQ 0 = "00:00:00" := by decide
  constructor
  · intro s hs
    unfold secondsToHHMMSS parseFloatQ
    rw [parseFloatQ?_none_of_not_accepts s hs]
    exact hzero
  · intro sp d c arr hsum
    have hNA : (getETA sp d c arr).1 = "N/A" := by
      simp only [getETA] at hsum ⊢
      rw [apply_ite Prod.snd, ite_self] at hsum
      rw [if_pos hsum]
    refine ⟨hNA, ?_⟩
    rw [hNA]
    have hna : goParseFloatAccepts "N/A" = false := by decide
    unfold secondsToHHMMSS parseFloatQ
    rw [parseFloatQ?_none_of_not_accepts _ hna]
    exact hzero

set_option maxRecDepth 100000 in
unseal Rat.add Rat.mul Rat.sub Rat.inv in
/-- Witness for C9 at the `N/A` sentinel and a zero-speed window. -/
theorem unparsable_eta_renders_zero_timecode_witness :
    secondsToHHMMSS "N/A" = "00:00:00" ∧ (getETA 0 1 0 []).1 = "N/A" :=
  ⟨unparsable_eta_renders_zero_timecode.1 "N/A" (by decide),
   (unparsable_eta_renders_zero_timecode.2 0 1 0 [] (by decide)).1⟩

end FFlite

namespace FFlite

theorem countP_replicate {α : Type} (p : α → Bool) (n : ℕ) (a : α) :
    (List.replicate n a).countP p = if p a then n else 0 := by
  induction n with
  | zero => simp
  | succ k ih =>
    rw [List.replicate_succ, List.countP_cons, ih]
    by_cases h : p a <;> simp [h]

theorem warnStep_spam (arr sp : List String) (w : String)
    (h : sp.contains w = true) :
    warnStep ⟨arr, sp⟩ w = ((none, false), ⟨arr, sp⟩) := by
  have h' : w ∈ sp := by simpa using h
  simp [warnStep, parseWarnings, isWarningSpamming, h']

theorem warnStep_mark (arr sp : List String) (w : String)
    (h1 : sp.contains w = false) (h2 : 10 ≤ arr.count w) :
    warnStep ⟨arr, sp⟩ w = ((none, true), ⟨arr, w :: sp⟩) := by
  have h1' : ¬ w ∈ sp := by simpa using h1
  simp [warnStep, parseWarnings, isWarningSpamming, h1', h2]

theorem warnStep_fresh (arr sp : List String) (w : String)
    (h1 : sp.contains w = false) (h2 : arr.count w < 10) :
    warnStep ⟨arr, sp⟩ w =
      ((some ("     \x1b[33;1m" ++ w ++ "\x1b[0m\n"), false), ⟨arr ++ [w], sp⟩) := by
  have h1' : ¬ w ∈ sp := by simpa using h1
  have h2' : ¬ 10 ≤ arr.count w := by omega
  simp [warnStep, parseWarnings, isWarningSpamming, h1', h2']

theorem warnRun_append (st : WarnState) (l1 l2 : List String) :
    warnRun st (l1 ++ l2) =
      ((warnRun st l1).1 ++ (warnRun (warnRun st l1).2 l2).1,
       (warnRun (warnRun st l1).2 l2).2) := by
  induction l1 generalizing st with
  | nil => simp [warnRun]
  | cons a as ih =>
    simp only [List.cons_append, warnRun, List.append_eq]
    rw [ih]

theorem warnRun_fresh (w : String) (j k : ℕ) (hjk : j + k ≤ 10) :
    warnRun ⟨List.replicate j w, []⟩ (List.replicate k w) =
      (List.replicate k ⟨w, true, false⟩, ⟨List.replicate (j + k) w, []⟩) := by
  induction k generalizing j with
  | zero => rfl
  | succ k ih =>
    rw [List.replicate_succ, warnRun]
    rw [warnStep_fresh _ _ _ (by simp) (by simp [List.count_replicate_self]; omega)]
    have h : List.replicate j w ++ [w] = List.replicate (j + 1) w := by
      rw [← List.replicate_succ']
    simp only [h]
    rw [ih (j + 1) (by omega)]
    simp [List.replicate_succ]
    omega

theorem warnRun_silent (arr sp : List String) (w : String) (k : ℕ)
    (h : sp.contains w = true) :
    warnRun ⟨arr, sp⟩ (List.replicate k w) =
      (List.replicate k ⟨w, false, false⟩, ⟨arr, sp⟩) := by
  induction k with
  | zero => rfl
  | succ k ih =>
    rw [List.replicate_succ, warnRun]
    rw [warnStep_spam _ _ _ h, ih]
    simp [List.replicate_succ]

end FFlite

namespace FFlite

/-- C1: a warning text recurring beyond 10 times in a session is rendered
exactly 10 times, then exactly one "Omitting further warnings" notice is
printed (at the 11th occurrence), and every occurrence thereafter renders
nothing; the suppression mark, once in the spam list, never reverses, and
processing one text never changes a different text's counter or
suppression state. -/
theorem warning_rendered_ten_then_suppressed (w : String) (n : ℕ) (hn : 11 ≤ n) :
    (warnRun warnInit (List.replicate n w)).1 =
      List.replicate 10 ⟨w, true, false⟩ ++ [⟨w, false, true⟩] ++
        List.replicate (n - 11) ⟨w, false, false⟩ ∧
    renderedCount w (warnRun warnInit (List.replicate n w)).1 = 10 ∧
    noticeCount w (warnRun warnInit (List.replicate n w)).1 = 1 ∧
    (∀ (st : WarnState) (v : String), w ∈ st.spamList → w ∈ (warnStep st v).2.spamList) ∧
    (∀ (st : WarnState) (v : String), v ≠ w →
      (warnStep st w).2.warningArray.count v = st.warningArray.count v ∧
      (warnStep st w).2.spamList.contains v = st.spamList.contains v) := by
  have hsplit : List.replicate n w =
      (List.replicate 10 w ++ [w]) ++ List.replicate (n - 11) w := by
    rw [← List.replicate_succ', ← List.replicate_add]
    congr 1
    omega
  have hA : warnRun warnInit (List.replicate 10 w) =
      (List.replicate 10 ⟨w, true, false⟩, ⟨List.replicate 10 w, []⟩) := by
    simpa [warnInit] using warnRun_fresh w 0 10 (by omega)
  have hB : warnRun ⟨List.replicate 10 w, []⟩ [w] =
      ([⟨w, false, true⟩], ⟨List.replicate 10 w, [w]⟩) := by
    rw [show [w] = w :: ([] : List String) from rfl, warnRun]
    rw [warnStep_mark _ _ _ (by simp) (by simp [List.count_replicate_self])]
    rfl
  have hAB : warnRun warnInit (List.replicate 10 w ++ [w]) =
      (List.replicate 10 ⟨w, true, false⟩ ++ [⟨w, false, true⟩],
       ⟨List.replicate 10 w, [w]⟩) := by
    rw [warnRun_append, hA, hB]
  have hC : warnRun ⟨List.replicate 10 w, [w]⟩ (List.replicate (n - 11) w) =
      (List.replicate (n - 11) ⟨w, false, false⟩, ⟨List.replicate 10 w, [w]⟩) :=
    warnRun_silent _ _ _ _ (by simp)
  have hstruct : (warnRun warnInit (List.replicate n w)).1 =
      List.replicate 10 ⟨w, true, false⟩ ++ [⟨w, false, true⟩] ++
        List.replicate (n - 11) ⟨w, false, false⟩ := by
    rw [hsplit, warnRun_append, hAB, hC]
  refine ⟨hstruct, ?_, ?_, ?_, ?_⟩
  · rw [hstruct]
    simp [renderedCount, List.countP_append, countP_replicate]
  · rw [hstruct]
    simp [noticeCount, List.countP_append, countP_replicate]
  · intro st v hv
    unfold warnStep parseWarnings isWarningSpamming
    by_cases h1 : v ∈ st.spamList <;> by_cases h2 : 10 ≤ st.warningArray.count v <;>
      simp [h1, h2, hv, List.mem_cons_of_mem]
  · intro st v hv
    unfold warnStep parseWarnings isWarningSpamming
    have hvw : (v == w) = false := by
      simpa using hv
    have hwv : (w == v) = false := by
      simpa using (Ne.symm hv)
    by_cases h1 : w ∈ st.spamList <;> by_cases h2 : 10 ≤ st.warningArray.count w <;>
      simp [h1, h2, List.count_append, List.count_cons, hvw, hwv]
    exact fun h => absurd h hv

theorem warning_rendered_ten_then_suppressed_witness :
    renderedCount "w" (warnRun warnInit (List.replicate 12 "w")).1 = 10 ∧
    noticeCount "w" (warnRun warnInit (List.replicate 12 "w")).1 = 1 :=
  ⟨(warning_rendered_ten_then_suppressed "w" 12 (by omega)).2.1,
   (warning_rendered_ten_then_suppressed "w" 12 (by omega)).2.2.1⟩

end FFlite

namespace FFlite

set_option maxRecDepth 1000000 in
unseal Rat.add Rat.mul Rat.sub Rat.inv in
/-- Witness for C3's amended theorem at concrete lines. -/
theorem duration_follows_latest_duration_line_witness :
    (sessStep ⟨false, false, 10⟩ "  Duration: 00:00:20.00, start: 0.000000").duration =
      parseDurationValue "  Duration: 00:00:20.00, start: 0.000000" ∧
    (runSess ⟨false, false, 10⟩ ["frame= 10 fps= 25 q=28.0"]).duration =
      (⟨false, false, 10⟩ : SessState).duration :=
  ⟨(duration_follows_latest_duration_line ⟨false, false, 10⟩
      "  Duration: 00:00:20.00, start: 0.000000" []).1 (by decide),
   (duration_follows_latest_duration_line ⟨false, false, 10⟩ ""
      ["frame= 10 fps= 25 q=28.0"]).2 (by decide)⟩

theorem dcFacts : ∀ d : Fin 10,
    isDigit (Nat.digitChar d.val) = true ∧
    Nat.digitChar d.val ≠ '.' ∧ Nat.digitChar d.val ≠ ':' ∧
    Nat.digitChar d.val ≠ '+' ∧ Nat.digitChar d.val ≠ '-' ∧
    Nat.digitChar d.val ≠ '_' ∧
    digVal (Nat.digitChar d.val) = d.val := by decide

theorem dcFact (d : ℕ) (hd : d < 10) :
    isDigit (Nat.digitChar d) = true ∧
    Nat.digitChar d ≠ '.' ∧ Nat.digitChar d ≠ ':' ∧
    Nat.digitChar d ≠ '+' ∧ Nat.digitChar d ≠ '-' ∧
    Nat.digitChar d ≠ '_' ∧
    digVal (Nat.digitChar d) = d := by
  simpa using dcFacts ⟨d, hd⟩

theorem qfloor_div_nat (n : ℤ) (d : ℕ) : qfloor ((n : ℚ) / (d : ℚ)) = n / d := by
  rw [qfloor_eq]
  exact_mod_cast Rat.floor_intCast_div_natCast n d

theorem qceil_div_nat (n : ℤ) (d : ℕ) : qceil ((n : ℚ) / (d : ℚ)) = -(-n / d) := by
  have : qfloor (-((n : ℚ) / (d : ℚ))) = -n / d := by
    rw [show -((n : ℚ) / (d : ℚ)) = ((-n : ℤ) : ℚ) / (d : ℚ) by push_cast; ring]
    exact qfloor_div_nat (-n) d
  rw [qceil, ← qfloor, this]

theorem parseFloatQ_digits (n : ℕ) (hn : n ≤ 99) :
    parseFloatQ (String.mk [Nat.digitChar (n / 10), Nat.digitChar (n % 10)]) = (n : ℚ) := by
  obtain ⟨d1, n1, n2, n3, n4, n5, v1⟩ := dcFact (n / 10) (by omega)
  obtain ⟨d2, m1, m2, m3, m4, m5, v2⟩ := dcFact (n % 10) (by omega)
  have hmunch : munchDigits [Nat.digitChar (n / 10), Nat.digitChar (n % 10)] =
      ([Nat.digitChar (n / 10), Nat.digitChar (n % 10)], []) := by
    simp [munchDigits, d1, d2]
  have hnat : natOfDigits [Nat.digitChar (n / 10), Nat.digitChar (n % 10)] = n := by
    simp [natOfDigits, v1, v2]
    omega
  unfold parseFloatQ parseFloatQ?
  split
  · next t heq =>
    injection heq with h1 _
    exact absurd h1 n3
  · next t heq =>
    injection heq with h1 _
    exact absurd h1 n4
  · next =>
    show (parseUnsignedQ? [Nat.digitChar (n / 10), Nat.digitChar (n % 10)]).getD 0 = (n : ℚ)
    unfold parseUnsignedQ?
    simp [hmunch, hnat]

end FFlite

namespace FFlite

theorem munchDigits_not_digit (c : Char) (cs : List Char) (hc : isDigit c = false) :
    munchDigits (c :: cs) = ([], c :: cs) := by
  rw [munchDigits.eq_def]
  split <;> simp_all

theorem natOfDigits_nil : natOfDigits [] = 0 := rfl

theorem parseFloatQ_dot_digits (n : ℕ) (hn : n ≤ 99) :
    parseFloatQ (String.mk ['.', Nat.digitChar (n / 10), Nat.digitChar (n % 10)]) =
      (n : ℚ) / 100 := by
  obtain ⟨d1, n1, n2, n3, n4, n5, v1⟩ := dcFact (n / 10) (by omega)
  obtain ⟨d2, m1, m2, m3, m4, m5, v2⟩ := dcFact (n % 10) (by omega)
  have hmunch2 : munchDigits [Nat.digitChar (n / 10), Nat.digitChar (n % 10)] =
      ([Nat.digitChar (n / 10), Nat.digitChar (n % 10)], []) := by
    simp [munchDigits, d1, d2]
  have hmunch : munchDigits ['.', Nat.digitChar (n / 10), Nat.digitChar (n % 10)] =
      ([], ['.', Nat.digitChar (n / 10), Nat.digitChar (n % 10)]) :=
    munchDigits_not_digit '.' _ (by decide)
  have hnat : natOfDigits [Nat.digitChar (n / 10), Nat.digitChar (n % 10)] = n := by
    simp [natOfDigits, v1, v2]
    omega
  unfold parseFloatQ parseFloatQ?
  split
  · next t heq =>
    injection heq with h1 _
    exact absurd h1 (by decide)
  · next t heq =>
    injection heq with h1 _
    exact absurd h1 (by decide)
  · next =>
    show (parseUnsignedQ? ['.', Nat.digitChar (n / 10), Nat.digitChar (n % 10)]).getD 0 =
      (n : ℚ) / 100
    unfold parseUnsignedQ?
    simp [hmunch, hmunch2, hnat, fracOfDigits, natOfDigits_nil]

theorem hhmmssms_mkTimecode (h m s ms : ℕ)
    (hh99 : h ≤ 99) (hm99 : m ≤ 99) (hs99 : s ≤ 99) (hms99 : ms ≤ 99) :
    hhmmssmsToSeconds (mkTimecode h m s ms) =
      (s : ℚ) + (m : ℚ) * 60 + (h : ℚ) * 3600 + (ms : ℚ) / 100 := by
  obtain ⟨_, a1, a2, _, _, _, _⟩ := dcFact (h / 10) (by omega)
  obtain ⟨_, b1, b2, _, _, _, _⟩ := dcFact (h % 10) (by omega)
  obtain ⟨_, c1, c2, _, _, _, _⟩ := dcFact (m / 10) (by omega)
  obtain ⟨_, e1, e2, _, _, _, _⟩ := dcFact (m % 10) (by omega)
  obtain ⟨_, f1, f2, _, _, _, _⟩ := dcFact (s / 10) (by omega)
  obtain ⟨_, g1, g2, _, _, _, _⟩ := dcFact (s % 10) (by omega)
  obtain ⟨_, i1, i2, _, _, _, _⟩ := dcFact (ms / 10) (by omega)
  obtain ⟨_, j1, j2, _, _, _, _⟩ := dcFact (ms % 10) (by omega)
  have hdata : (mkTimecode h m s ms).data =
      [Nat.digitChar (h / 10), Nat.digitChar (h % 10), ':',
       Nat.digitChar (m / 10), Nat.digitChar (m % 10), ':',
       Nat.digitChar (s / 10), Nat.digitChar (s % 10), '.',
       Nat.digitChar (ms / 10), Nat.digitChar (ms % 10)] := by
    simp [mkTimecode, pad2]
  have hloop : hhmmssmsLoop (mkTimecode h m s ms).data.reverse [] 0 [] =
      (parseFloatQ (String.mk ['.', Nat.digitChar (ms / 10), Nat.digitChar (ms % 10)]),
       [String.mk [Nat.digitChar (s / 10), Nat.digitChar (s % 10)],
        String.mk [Nat.digitChar (m / 10), Nat.digitChar (m % 10)],
        String.mk [Nat.digitChar (h / 10), Nat.digitChar (h % 10)]]) := by
    rw [hdata]
    simp only [List.reverse_cons, List.reverse_nil, List.nil_append, List.cons_append,
      List.append_assoc]
    simp [hhmmssmsLoop, a1, a2, b1, b2, c1, c2, e1, e2, f1, f2, g1, g2, i1, i2, j1, j2]
  unfold hhmmssmsToSeconds
  rw [hloop]
  simp only []
  rw [parseFloatQ_digits s hs99, parseFloatQ_digits m hm99, parseFloatQ_digits h hh99,
    parseFloatQ_dot_digits ms hms99]

end FFlite

namespace FFlite

theorem qfloor_natCast_div (a d : ℕ) :
    qfloor ((a : ℚ) / (d : ℚ)) = ((a / d : ℕ) : ℤ) := by
  rw [qfloor_eq]
  exact_mod_cast Rat.floor_natCast_div_natCast a d

theorem qfloor_intCast (z : ℤ) : qfloor ((z : ℚ)) = z := by
  rw [qfloor_eq]
  exact Int.floor_intCast z

theorem qceil_intCast (z : ℤ) : qceil ((z : ℚ)) = z := by
  rw [qceil_eq]
  exact Int.ceil_intCast z

theorem roundtrip_core (h m s ms : ℕ)
    (_hh99 : h ≤ 99) (hm59 : m ≤ 59) (hs59 : s ≤ 59) (hms99 : ms ≤ 99) :
    secondsToHHMMSSofQ ((s : ℚ) + (m : ℚ) * 60 + (h : ℚ) * 3600 + (ms : ℚ) / 100) =
      mkHMS (h : ℤ) (m : ℤ)
        (if ms = 50 then (if s % 2 = 0 then (s : ℤ) + 1 else (s : ℤ) - 1)
         else (s : ℤ)) := by
  set q : ℚ := (s : ℚ) + (m : ℚ) * 60 + (h : ℚ) * 3600 + (ms : ℚ) / 100 with hq
  set N : ℕ := 3600 * h + 60 * m + s with hN
  have hqN : q = ((100 * N + ms : ℕ) : ℚ) / 100 := by
    rw [hq, hN]; push_cast; ring
  have hhh : qfloor (q / 3600) = ((h : ℕ) : ℤ) := by
    have e : q / 3600 = ((100 * N + ms : ℕ) : ℚ) / ((360000 : ℕ) : ℚ) := by
      rw [hqN]; push_cast; ring
    rw [e, qfloor_natCast_div]
    norm_cast
    omega
  have hmm : qfloor ((q - ((h : ℤ) : ℚ) * 3600) / 60) = ((m : ℕ) : ℤ) := by
    have e : (q - ((h : ℤ) : ℚ) * 3600) / 60 =
        ((6000 * m + 100 * s + ms : ℕ) : ℚ) / ((6000 : ℕ) : ℚ) := by
      rw [hqN, hN]; push_cast; ring
    rw [e, qfloor_natCast_div]
    norm_cast
    omega
  have hss : qfloor (q - ((h : ℤ) : ℚ) * 3600 - ((m : ℤ) : ℚ) * 60) = ((s : ℕ) : ℤ) := by
    have e : q - ((h : ℤ) : ℚ) * 3600 - ((m : ℤ) : ℚ) * 60 =
        ((100 * s + ms : ℕ) : ℚ) / ((100 : ℕ) : ℚ) := by
      rw [hqN, hN]; push_cast; ring
    rw [e, qfloor_natCast_div]
    norm_cast
    omega
  have hfloorq : qfloor q = ((N : ℕ) : ℤ) := by
    have e : q = ((100 * N + ms : ℕ) : ℚ) / ((100 : ℕ) : ℚ) := by
      rw [hqN]; norm_cast
    rw [e, qfloor_natCast_div]
    norm_cast
    omega
  have hfract : q - ((qfloor q : ℤ) : ℚ) = (ms : ℚ) / 100 := by
    rw [hfloorq, hqN]
    push_cast
    ring
  have hfractN : q - ((N : ℕ) : ℚ) = (ms : ℚ) / 100 := by
    rw [hfloorq] at hfract
    exact_mod_cast hfract
  have hrnd : round (mathRemainder1 q) =
      (if ms = 50 then (if s % 2 = 0 then (1 : ℤ) else -1) else 0) := by
    by_cases h50 : ms = 50
    · have hpar : (((N : ℕ) : ℤ) % 2 = 0) ↔ (s % 2 = 0) := by omega
      have hhalf : q - ((N : ℕ) : ℚ) = 1 / 2 := by
        rw [hfractN, h50]
        norm_num
      have hcond : q - ((qfloor q : ℤ) : ℚ) = 1 / 2 := by
        rw [hfloorq]
        push_cast
        push_cast at hhalf
        linarith
      by_cases hs2 : s % 2 = 0
      · have hrne : rne q = ((N : ℕ) : ℤ) := by
          unfold rne
          rw [if_pos hcond, hfloorq, if_pos (hpar.mpr hs2)]
        unfold mathRemainder1
        rw [hrne]
        push_cast
        have e1 : q - ((N : ℕ) : ℚ) = 1 / 2 := hhalf
        rw [e1]
        unfold round
        rw [if_neg (by norm_num)]
        have e2 : (1 / 2 + 1 / 2 : ℚ) = ((1 : ℤ) : ℚ) := by norm_num
        rw [e2, qfloor_intCast, h50, if_pos rfl, if_pos hs2]
      · have hrne : rne q = ((N : ℕ) : ℤ) + 1 := by
          unfold rne
          rw [if_pos hcond, hfloorq, if_neg (fun hc => hs2 (hpar.mp hc))]
        unfold mathRemainder1
        rw [hrne]
        push_cast
        have e1 : q - ((N : ℚ) + 1) = -(1 / 2) := by
          push_cast at hhalf
          linarith
        rw [e1]
        unfold round
        rw [if_pos (by norm_num)]
        have e2 : (-(1 / 2) - 1 / 2 : ℚ) = ((-1 : ℤ) : ℚ) := by norm_num
        rw [e2, qceil_intCast, h50, if_pos rfl, if_neg hs2]
    · have hcond : ¬ (q - ((qfloor q : ℤ) : ℚ) = 1 / 2) := by
        rw [hfract]
        intro hcon
        apply h50
        have h2 : (ms : ℚ) = 50 := by linarith
        exact_mod_cast h2
      have e : q + 1 / 2 = ((100 * N + ms + 50 : ℕ) : ℚ) / ((100 : ℕ) : ℚ) := by
        rw [hqN]
        push_cast
        ring
      have hrne : rne q = (((100 * N + ms + 50) / 100 : ℕ) : ℤ) := by
        unfold rne
        rw [if_neg hcond, e, qfloor_natCast_div]
      unfold mathRemainder1
      rw [hrne, if_neg h50]
      by_cases hlt : ms < 50
      · have ediv : (100 * N + ms + 50) / 100 = N := by omega
        rw [ediv]
        push_cast
        rw [show q - (N : ℚ) = (ms : ℚ) / 100 from hfractN]
        unfold round
        rw [if_neg (not_lt.mpr (by positivity))]
        have e3 : ((ms : ℚ) / 100 + 1 / 2) = ((ms + 50 : ℕ) : ℚ) / ((100 : ℕ) : ℚ) := by
          push_cast
          ring
        rw [e3, qfloor_natCast_div]
        norm_cast
        omega
      · have ediv : (100 * N + ms + 50) / 100 = N + 1 := by omega
        rw [ediv]
        push_cast
        have e1 : q - ((N : ℚ) + 1) = (ms : ℚ) / 100 - 1 := by
          push_cast at hfractN
          linarith
        rw [e1]
        unfold round
        have hms100 : (ms : ℚ) < 100 := by
          have : ms < 100 := by omega
          exact_mod_cast this
        rw [if_pos (by
          have h0 : (0 : ℚ) < 100 := by norm_num
          have hlt1 : (ms : ℚ) / 100 < 1 := (div_lt_one h0).mpr hms100
          linarith)]
        have e3 : ((ms : ℚ) / 100 - 1 - 1 / 2) = (((ms : ℤ) - 150 : ℤ) : ℚ) / ((100 : ℕ) : ℚ) := by
          push_cast
          ring
        rw [e3, qceil_div_nat]
        have hms99' : (ms : ℤ) ≤ 99 := by exact_mod_cast hms99
        have hms50' : (50 : ℤ) ≤ (ms : ℤ) := by
          have : 50 ≤ ms := by omega
          exact_mod_cast this
        omega
  simp only [secondsToHHMMSSofQ]
  rw [hhh, hmm, hss, hrnd]
  unfold mkHMS
  have harg : (((s : ℕ) : ℤ) + if ms = 50 then (if s % 2 = 0 then (1 : ℤ) else -1) else 0) =
      (if ms = 50 then (if s % 2 = 0 then ((s : ℕ) : ℤ) + 1 else ((s : ℕ) : ℤ) - 1)
       else ((s : ℕ) : ℤ)) := by
    split_ifs <;> ring
  rw [harg]

end FFlite

namespace FFlite

set_option maxRecDepth 100000 in
unseal Rat.add Rat.mul Rat.sub Rat.inv in
/-- Counterexample to C4: the round trip of `00:00:13.50` renders
`00:00:12` — not `00:00:13` or `00:00:14`, the only values compatible
with rounding the fraction to the nearest whole second. -/
theorem roundtrip_nearest_counterexample :
    secondsToHHMMSSofQ (hhmmssmsToSeconds "00:00:13.50") = "00:00:12" ∧
    ("00:00:12" : String) ≠ "00:00:13" ∧ ("00:00:12" : String) ≠ "00:00:14" :=
  ⟨by decide, by decide, by decide⟩

/-- C4 (amended): for every `HH:MM:SS.ms` timecode with two-digit
fields, the round trip through `hhmmssmsToSeconds` and the seconds-to-
timecode conversion reproduces `HH:MM` exactly but *truncates* the
fractional part — except when the fraction is exactly `.50`, where the
seconds field is incremented by 1 if it is even and decremented by 1 if
it is odd (an artifact of `round(math.Remainder(s, 1.0))`, which is 0
for any other fraction). -/
theorem roundtrip_truncates_fraction (h m s ms : ℕ)
    (hh99 : h ≤ 99) (hm59 : m ≤ 59) (hs59 : s ≤ 59) (hms99 : ms ≤ 99) :
    secondsToHHMMSSofQ (hhmmssmsToSeconds (mkTimecode h m s ms)) =
      mkHMS (h : ℤ) (m : ℤ)
        (if ms = 50 then (if s % 2 = 0 then (s : ℤ) + 1 else (s : ℤ) - 1)
         else (s : ℤ)) := by
  rw [hhmmssms_mkTimecode h m s ms hh99 (by omega) (by omega) hms99]
  exact roundtrip_core h m s ms hh99 hm59 hs59 hms99

set_option maxRecDepth 100000 in
unseal Rat.add Rat.mul Rat.sub Rat.inv in
/-- Witness for C4's amended theorem: an ordinary fraction truncates,
and an exact `.50` fraction on an odd second decrements. -/
theorem roundtrip_truncates_fraction_witness :
    secondsToHHMMSSofQ (hhmmssmsToSeconds (mkTimecode 1 2 34 56)) = "01:02:34" ∧
    secondsToHHMMSSofQ (hhmmssmsToSeconds (mkTimecode 0 0 13 50)) = "00:00:12" :=
  ⟨(roundtrip_truncates_fraction 1 2 34 56 (by norm_num) (by norm_num) (by norm_num)
      (by norm_num)).trans (by decide),
   (roundtrip_truncates_fraction 0 0 13 50 (by norm_num) (by norm_num) (by norm_num)
      (by norm_num)).trans (by decide)⟩

end FFlite
